import Mathlib

/-!
Verification development for the DistributedTraining repository.

The Python sources are shallowly embedded: every effectful operation of the
original code (gradient averaging, RPC fan-out, optimizer steps, hub calls)
is represented by an explicit outcome supplied through an environment
record, and the control flow of each function is translated statement by
statement.  Machine floats are modelled as rationals extended with a NaN
value, which is adequate because the embedded code only compares floats for
equality and tests them for NaN.  Python strings are modelled as `List Char`
where their structure matters (tag names) and as `String` elsewhere.
-/

deriving instance DecidableEq for Except

namespace DistributedTraining

/-- Exception classes that can flow through the embedded code.  The raise
sites named `ModelStateError` in `avg_handler.py` are represented by
`modelState`; note the module never defines nor imports that class, so at
runtime the raise surfaces as a `NameError`, but every embedded handler
catches `Exception` broadly, so the class does not affect control flow. -/
inductive PyExc where
  | typeError
  | valueError
  | modelState
  | gradientAveragingTimeout
  | gradientAveraging
  | allReduce
  | generic
deriving DecidableEq

/-- Model of a Python float: a finite rational or NaN.  The embedded code
uses floats only through equality tests and `np.isnan`, both of which this
model captures (IEEE equality on finite values, and NaN unequal to
everything including itself). -/
inductive PyFloat where
  | fin (q : ℚ)
  | nan
deriving DecidableEq

/-- Python `==` on two float objects (IEEE semantics): finite values compare
by value, NaN compares unequal to everything. -/
def PyFloat.pyEq : PyFloat → PyFloat → Bool
  | .fin a, .fin b => a == b
  | _, _ => false

/-- Python `==` on two lists of floats built by separate `tolist()` calls:
equal lengths and elementwise float equality.  (CPython short-circuits on
object identity per element, but the two samples here are taken by separate
`tolist()` calls, so no element is shared.) -/
def pyListEq (xs ys : List PyFloat) : Bool :=
  xs.length == ys.length && (List.zip xs ys).all fun p => p.1.pyEq p.2

/-- Number of NaN entries, i.e. `sum(np.isnan(xs))`. -/
def nanCount (xs : List PyFloat) : ℕ :=
  xs.countP (· = PyFloat.nan)

/-- The two raise sites of `AveragingHandler._validate_weight_update`. -/
inductive ValidationError where
  | weightsUnchanged
  | nanDetected
deriving DecidableEq

/-- Embedding of `AveragingHandler._validate_weight_update`
(avg_handler.py lines 56-66): raises when the post-step sample compares
equal to the pre-step sample, then when more than one post-step value is
NaN, otherwise returns True. -/
def validate_weight_update (initialWeights finalWeights : List PyFloat) :
    Except ValidationError Bool :=
  if pyListEq finalWeights initialWeights then .error .weightsUnchanged
  else if nanCount finalWeights > 1 then .error .nanDetected
  else .ok true

/-! ### Validator side of the AllReduce round -/

/-- The tuple produced by a successful gradient-averaging step:
failed peers, participating peers, per-participant modes and bandwidths. -/
structure AvgResult where
  failedPeers : List String
  participatingPeers : List String
  modes : List String
  bandwidths : List ℚ
deriving DecidableEq

/-- Outcomes of each effectful operation performed by
`run_validator_allreduce`, in program order.  A `some e` or `.error e`
field means the corresponding call raises `e`. -/
structure ValidatorEnv where
  clipGrad : Option PyExc
  startStep : Except PyExc Unit
  queryForward : Option PyExc
  awaitStep : Except PyExc (Option AvgResult)
  notifyUsed : Option PyExc
  outerStep : Option PyExc
  updateMainParam : Option PyExc
  zeroGrad : Option PyExc
  initialWeights : List PyFloat
  finalWeights : List PyFloat
deriving DecidableEq

/-- Raise the exception when the option carries one. -/
def throwOpt (o : Option PyExc) : Except PyExc Unit :=
  match o with
  | some e => .error e
  | none => .ok ()

/-- The body of the `try` block of `run_validator_allreduce`
(avg_handler.py lines 82-144), as an exception-propagating computation.
The returned dictionary is `none` for the empty dict and `some r` for the
success dictionary of peers, modes and bandwidths. -/
def validatorBody (env : ValidatorEnv) : Except PyExc (Bool × Option AvgResult) := do
  throwOpt env.clipGrad
  let _ ← env.startStep
  throwOpt env.queryForward
  let res ← env.awaitStep
  match res with
  | none => return (false, none)
  | some r =>
    throwOpt env.notifyUsed
    throwOpt env.outerStep
    throwOpt env.updateMainParam
    throwOpt env.zeroGrad
    match validate_weight_update env.initialWeights env.finalWeights with
    | .error _ => throw PyExc.modelState
    | .ok _ => return (true, some r)

/-- Whether the gradient-averaging future was started: the clip succeeded
and the `grad_averager.step(wait=False, ...)` call returned a future. -/
def futureStarted (env : ValidatorEnv) : Bool :=
  env.clipGrad = none && env.startStep.isOk

/-- Embedding of `AveragingHandler.run_validator_allreduce`
(avg_handler.py lines 68-152): the `except Exception` clause converts any
raised exception into `(False, empty dict)`, and the `finally` clause
cancels the averaging future exactly when it was started.  The second
component of the result records whether `cancel()` was invoked. -/
def run_validator_allreduce (env : ValidatorEnv) :
    (Bool × Option AvgResult) × Bool :=
  let out := match validatorBody env with
    | .ok v => v
    | .error _ => (false, none)
  (out, futureStarted env)

/-! ### Miner side of the AllReduce round -/

/-- Possible values of the completion field of an AllReduce synapse:
a Python bool or a Python str. -/
inductive PyVal where
  | pyBool (b : Bool)
  | pyStr (s : String)
deriving DecidableEq

/-- Python truthiness of a completion value (`if not synapse.completion`). -/
def PyVal.truthy : PyVal → Bool
  | .pyBool b => b
  | .pyStr s => !(s == "")

/-- Python identity test against the boolean True object
(`synapse.completion is True`).  The string value True-spelled is a
different object than the boolean, so the test is false for it. -/
def PyVal.isBoolTrue : PyVal → Bool
  | .pyBool true => true
  | _ => false

/-- Outcomes of each effectful operation performed by
`run_miner_allreduce`, in program order. -/
structure MinerRoundEnv where
  clipGrad : Option PyExc
  gradStep : Except PyExc Unit
  notifyUsed : Option PyExc
  outerStep : Option PyExc
  updateMainParam : Option PyExc
  zeroGrad : Option PyExc
  initialWeights : List PyFloat
  finalWeights : List PyFloat
deriving DecidableEq

/-- Embedding of `AveragingHandler.run_miner_allreduce`
(avg_handler.py lines 268-328).  On the all-success path the synapse
completion field is assigned the string value spelled True (line 318:
`synapse.completion = "True"`), not the boolean.  Any exception in the
body, including the validation raise, is wrapped and re-raised by the
outer `except Exception` clause as an `AllReduceError`; the `finally`
clause (future cancel, loading-flag clear) touches no state observed
here.  The model covers the handler built with
`model_loading_manager=None`, so the loading wait is a no-op. -/
def run_miner_allreduce (env : MinerRoundEnv) : Except PyExc PyVal :=
  if env.clipGrad.isSome then .error .allReduce
  else match env.gradStep with
  | .error _ => .error .allReduce
  | .ok _ =>
    if env.notifyUsed.isSome then .error .allReduce
    else if env.outerStep.isSome then .error .allReduce
    else if env.updateMainParam.isSome then .error .allReduce
    else if env.zeroGrad.isSome then .error .allReduce
    else match validate_weight_update env.initialWeights env.finalWeights with
    | .error _ => .error .allReduce
    | .ok _ => .ok (PyVal.pyStr "True")

/-- The call the miner actually makes (miner.py lines 601-606): it passes
three positional arguments (synapse, local_progress, all_reduce_start_time)
to `AveragingHandler.run_miner_allreduce`, whose definition
(avg_handler.py line 268) accepts only the synapse.  The Python call
protocol rejects the call with a TypeError before the handler body runs,
for every round environment. -/
def minerDelegateCall (_env : MinerRoundEnv) : Except PyExc PyVal :=
  .error .typeError

/-- Values of `Miner.training_status`. -/
inductive TrainingStatus where
  | stopped
  | running
  | paused
  | errored
deriving DecidableEq

/-- The fields of `LocalTrainingProgress` read and written by the miner
AllReduce path. -/
structure MinerProgress where
  epoch : ℕ
  innerStep : ℕ
  samplesAccumulated : ℕ
deriving DecidableEq

/-- The miner state touched by `Miner.all_reduce`. -/
structure MinerState where
  progress : MinerProgress
  trainingActive : Bool
  trainingStatus : TrainingStatus
  uploadInFlight : Bool
  lastAllreduceBlock : Option ℕ
  allReduceSuccessStatus : Bool
deriving DecidableEq

/-- The progress effect of `Miner.inner_optimizer_step` (miner.py lines
561-576): the inner-step counter is incremented and the accumulated-sample
counter reset (the optimizer, scaler and scheduler calls carry no state
modelled here). -/
def inner_optimizer_step (p : MinerProgress) : MinerProgress :=
  { p with innerStep := p.innerStep + 1, samplesAccumulated := 0 }

/-- The `finally` clause of `Miner.all_reduce` (miner.py lines 617-636).
The branch is selected by the Python identity test `completion is True`.
On the success branch the counters are reset, the epoch advanced, the
round block recorded, a background upload started and training resumed;
otherwise only the success flag is cleared.  The `return synapse` makes
the handler return normally even when an exception is in flight. -/
def minerFinalize (st : MinerState) (comp : PyVal) (currentBlock : ℕ) :
    MinerState × PyVal :=
  if comp.isBoolTrue then
    ({ st with
        progress := { epoch := st.progress.epoch + 1, innerStep := 0,
                      samplesAccumulated := 0 },
        lastAllreduceBlock := some currentBlock,
        uploadInFlight := true,
        trainingActive := true,
        trainingStatus := .running }, comp)
  else
    ({ st with allReduceSuccessStatus := false }, comp)

/-- Embedding of `Miner.all_reduce` (miner.py lines 578-636), parameterised
by the outcome of the delegated averaging call.  Under the training lock
the handler cancels an in-flight upload (modelled as effective), pauses
training, runs the inner optimizer step, and delegates.  `preExc` models an
exception raised by the inner optimizer step machinery (its torch calls
precede the progress-counter updates, so progress is unchanged); the outer
`except` then forces completion to the boolean False and re-raises, and the
`finally` swallows the re-raise through its `return`.  Otherwise the inner
`try` assigns the delegated synapse; a falsy completion or a raised
exception forces completion to the boolean False. -/
def all_reduce (st : MinerState) (preExc : Option PyExc)
    (delegate : Except PyExc PyVal) (currentBlock : ℕ) : MinerState × PyVal :=
  let st1 := { st with uploadInFlight := false }
  let st2 := { st1 with trainingActive := false, trainingStatus := .paused }
  match preExc with
  | some _ => minerFinalize st2 (PyVal.pyBool false) currentBlock
  | none =>
    let st3 := { st2 with progress := inner_optimizer_step st2.progress }
    let comp := match delegate with
      | .ok c => if c.truthy then c else PyVal.pyBool false
      | .error _ => PyVal.pyBool false
    minerFinalize st3 comp currentBlock

/-! ### Participation scoring -/

/-- The value space of `peerids_to_uids.get(str(peer), default)`: a real
integer UID, or the three-apostrophe string sentinel used as the default
for unmapped peer identifiers (modelled abstractly as `unknown`). -/
inductive PUid where
  | uid (n : ℕ)
  | unknown
deriving DecidableEq

/-- Dictionary lookup with the unknown-sentinel default. -/
def lookupUid (m : List (String × ℕ)) (p : String) : PUid :=
  match m.lookup p with
  | some n => .uid n
  | none => .unknown

/-- Inputs of `calculate_allreduce_scores`.  The optional mode and
bandwidth lists are indexed positionally against the participating peers
(the source indexes `modes[idx]`; the theorems assume parallel lengths,
since the source raises IndexError otherwise). -/
structure ScoresInput where
  participatingPeers : List String
  failedPeers : List String
  peeridsToUids : List (String × ℕ)
  modes : Option (List String)
  bandwidths : Option (List ℚ)
deriving DecidableEq

/-- The `participating_uids` list (avg_handler.py lines 176-182). -/
def participatingUids (inp : ScoresInput) : List PUid :=
  inp.participatingPeers.map (lookupUid inp.peeridsToUids)

/-- The `failed_uids` list (avg_handler.py lines 188-190). -/
def failedUids (inp : ScoresInput) : List PUid :=
  inp.failedPeers.map (lookupUid inp.peeridsToUids)

/-- Lookup in a dict built by inserting the pairs in order: the last write
for a key wins. -/
def lastLookup {α : Type} (pairs : List (PUid × α)) (k : PUid) : Option α :=
  pairs.reverse.lookup k

/-- The `uid_modes` dict: one insertion per participating peer, keyed by
its UID, valued by the positionally matching mode. -/
def uidModes (inp : ScoresInput) : List (PUid × String) :=
  match inp.modes with
  | none => []
  | some ms => (participatingUids inp).zip ms

/-- The `uid_bandwidths` dict, built the same way. -/
def uidBandwidths (inp : ScoresInput) : List (PUid × ℚ) :=
  match inp.bandwidths with
  | none => []
  | some bs => (participatingUids inp).zip bs

/-- The `max_bandwidth` normalizer (avg_handler.py line 205):
`max(bandwidths) if bandwidths else 1.0` — the Python truthiness guard
sends both the absent list and the empty list to 1.0. -/
def maxBandwidth (inp : ScoresInput) : ℚ :=
  match inp.bandwidths with
  | some (b :: bs) => bs.foldl max b
  | _ => 1

/-- The four status strings assigned by the scoring loop. -/
inductive Status where
  | success
  | wrongMode
  | fail
  | nonParticipating
deriving DecidableEq

/-- One iteration of the scoring loop of `calculate_allreduce_scores`
(avg_handler.py lines 211-245) for a given integer UID: participation
test, client-mode penalty, bandwidth bonus, failed and non-participating
buckets. -/
def statusAndScore (inp : ScoresInput) (uid : ℕ) : Status × ℚ :=
  let u := PUid.uid uid
  if u ∈ participatingUids inp ∧ u ∉ failedUids inp then
    if inp.modes.isSome ∧ lastLookup (uidModes inp) u = some "AveragingMode.CLIENT" then
      (.wrongMode, 0)
    else
      match inp.bandwidths, lastLookup (uidBandwidths inp) u with
      | some _, some b => (.success, 1 + (1 / 2) * (b / maxBandwidth inp))
      | _, _ => (.success, 1)
  else if u ∈ failedUids inp then (.fail, 0)
  else (.nonParticipating, 0)

/-- Embedding of `AveragingHandler.calculate_allreduce_scores`
(avg_handler.py lines 154-259): the per-UID score dict over the full UID
space 0..255, the per-UID status dict stored on the handler, and the
event-metrics update (failed count, participating count, successful
count, the last a possibly negative int). -/
def calculate_allreduce_scores (inp : ScoresInput) :
    List (ℕ × ℚ) × List (ℕ × Status) × (ℕ × ℕ × ℤ) :=
  ((List.range 256).map (fun u => (u, (statusAndScore inp u).2)),
   (List.range 256).map (fun u => (u, (statusAndScore inp u).1)),
   (inp.failedPeers.length, inp.participatingPeers.length,
    (inp.participatingPeers.length : ℤ) - (inp.failedPeers.length : ℤ)))

/-! ### Checkpoint upload and tag garbage collection

Tag names are modelled as `List Char` so the split-on-dot and integer
parsing done by `upload_model` can be embedded exactly. -/

/-- Python `name.split(".")` on a character list: the maximal dot-free
segments, with empty segments preserved (so the empty string splits to one
empty segment, as in Python). -/
def splitDots : List Char → List (List Char)
  | [] => [[]]
  | c :: cs =>
    match splitDots cs with
    | [] => [[c]]
    | h :: t => if c = '.' then [] :: h :: t else (c :: h) :: t

/-- Decimal digit to character. -/
def digitChar (d : ℕ) : Char :=
  if d = 0 then '0' else if d = 1 then '1' else if d = 2 then '2'
  else if d = 3 then '3' else if d = 4 then '4' else if d = 5 then '5'
  else if d = 6 then '6' else if d = 7 then '7' else if d = 8 then '8'
  else if d = 9 then '9' else '*'

/-- Character to decimal digit, when it is one. -/
def charDigit? (c : Char) : Option ℕ :=
  if c = '0' then some 0 else if c = '1' then some 1 else if c = '2' then some 2
  else if c = '3' then some 3 else if c = '4' then some 4 else if c = '5' then some 5
  else if c = '6' then some 6 else if c = '7' then some 7 else if c = '8' then some 8
  else if c = '9' then some 9 else none

/-- Big-endian accumulation of decimal digits. -/
def parseNatCore (acc : ℕ) : List Char → Option ℕ
  | [] => some acc
  | c :: cs =>
    match charDigit? c with
    | none => none
    | some d => parseNatCore (10 * acc + d) cs

/-- Parse a nonempty all-digit character list as a natural number. -/
def parseNatChars : List Char → Option ℕ
  | [] => none
  | c :: cs => parseNatCore 0 (c :: cs)

/-- Model of Python `int(s)` on the strings that occur as tag epoch
fields: an optional sign followed by decimal digits.  (Python additionally
strips whitespace and allows underscore separators; such strings do not
arise in the tag scheme.)  `none` models a ValueError. -/
def pyInt : List Char → Option ℤ
  | [] => none
  | c :: rest =>
    if c = '-' then (parseNatChars rest).map (fun n => -(n : ℤ))
    else if c = '+' then (parseNatChars rest).map (fun n => (n : ℤ))
    else (parseNatChars (c :: rest)).map (fun n => (n : ℤ))

/-- Little-endian decimal digits, with fuel for structural recursion. -/
def decDigitsAux : ℕ → ℕ → List ℕ
  | 0, _ => []
  | fuel + 1, n => if n = 0 then [] else n % 10 :: decDigitsAux fuel (n / 10)

/-- Decimal rendering of a natural number, as Python str() produces for
the f-string fields of the tag name. -/
def decChars (n : ℕ) : List Char :=
  if n = 0 then ['0'] else (decDigitsAux n n).reverse.map digitChar

/-- The literal tag sentinel name None-spelled. -/
def strNone : List Char := ['N', 'o', 'n', 'e']

/-- The tag the upload is about to create:
run id, dot, epoch, dot, inner step (miner.py line 342). -/
def tagName (run : List Char) (epoch innerStep : ℕ) : List Char :=
  run ++ '.' :: decChars epoch ++ '.' :: decChars innerStep

/-- The tag-deletion condition of `upload_model` (miner.py lines 318-330),
with the evaluation order of the Python `or`/`and` chain preserved: the
name equals the None sentinel; or the name splits into exactly three
parts, the first equals the run id, and the integer value of the second is
strictly greater than the uploaded epoch (the int() conversion raising a
ValueError when the part is not numeric); or the name equals the tag about
to be created. -/
def pyShouldDelete (run : List Char) (epoch innerStep : ℕ)
    (name : List Char) : Except PyExc Bool :=
  if name = strNone then .ok true
  else
    match splitDots name with
    | [a, b, _c] =>
      if a = run then
        match pyInt b with
        | none => .error .valueError
        | some k =>
          if k > (epoch : ℤ) then .ok true
          else .ok (decide (name = tagName run epoch innerStep))
      else .ok (decide (name = tagName run epoch innerStep))
    | _ => .ok (decide (name = tagName run epoch innerStep))

/-- Boolean form of the deletion condition, false when the condition
raises (used only to describe the all-parses-succeed path). -/
def shouldDeleteB (run : List Char) (epoch innerStep : ℕ)
    (name : List Char) : Bool :=
  match pyShouldDelete run epoch innerStep name with
  | .ok b => b
  | .error _ => false

/-- Network calls against the model hub made by `upload_model`. -/
inductive HubOp where
  | repoExistsCheck
  | createRepo
  | uploadFolder
  | listRepoRefs
  | deleteTag (name : List Char)
  | createTag (name : List Char)
deriving DecidableEq

/-- Outcomes of the effectful operations of `upload_model`.  The same
outcome is used on every retry attempt (the environment is held fixed
across the retries of one invocation). -/
structure UploadEnv where
  repoExists : Bool
  createRepoExc : Option PyExc
  trainingActive : Bool
  saveExc : Option PyExc
  uploadExc : Option PyExc
  listRefsExc : Option PyExc
  tags : List (List Char)
deriving DecidableEq

/-- The tag loop of one attempt (miner.py lines 318-337): each tag is
tested in order and deleted when the condition holds; a ValueError in the
condition aborts the loop with the deletions performed so far. -/
def processTags (run : List Char) (epoch innerStep : ℕ) :
    List (List Char) → Except (List HubOp × PyExc) (List HubOp)
  | [] => .ok []
  | t :: ts =>
    match pyShouldDelete run epoch innerStep t with
    | .error e => .error ([], e)
    | .ok true =>
      match processTags run epoch innerStep ts with
      | .ok ops => .ok (HubOp.deleteTag t :: ops)
      | .error (ops, e) => .error (HubOp.deleteTag t :: ops, e)
    | .ok false =>
      match processTags run epoch innerStep ts with
      | .ok ops => .ok ops
      | .error (ops, e) => .error (ops, e)

/-- One attempt of the `try` body of `upload_model` (miner.py lines
279-359): local save (no hub call), folder upload, listing of repo refs,
the tag loop, and on success the creation of the new tag.  Returns the
hub calls performed and the exception that aborted the attempt, if any. -/
def uploadAttempt (env : UploadEnv) (run : List Char) (epoch innerStep : ℕ) :
    List HubOp × Option PyExc :=
  if env.saveExc.isSome then ([], env.saveExc)
  else if env.uploadExc.isSome then ([HubOp.uploadFolder], env.uploadExc)
  else if env.listRefsExc.isSome then
    ([HubOp.uploadFolder, HubOp.listRepoRefs], env.listRefsExc)
  else
    match processTags run epoch innerStep env.tags with
    | .error (ops, e) => (HubOp.uploadFolder :: HubOp.listRepoRefs :: ops, some e)
    | .ok ops =>
      (HubOp.uploadFolder :: HubOp.listRepoRefs ::
        (ops ++ [HubOp.createTag (tagName run epoch innerStep)]), none)

/-- Result of a `upload_model` invocation: returned True, returned False
because training was paused, or propagated an exception after the retries
were exhausted. -/
inductive UploadOutcome where
  | succeeded
  | abortedInactive
  | raised (e : PyExc)
deriving DecidableEq

/-- The retry loop of `upload_model` (miner.py lines 274-373), with the
remaining attempts as fuel (the retry limit is 3).  Each iteration first
consults the training-active flag and abandons the upload when it is
cleared; a failed attempt is retried until the fuel runs out, after which
the bare `raise` re-raises the last error. -/
def uploadLoop (env : UploadEnv) (run : List Char) (epoch innerStep : ℕ) :
    ℕ → UploadOutcome × List HubOp
  | 0 => (.abortedInactive, [])
  | fuel + 1 =>
    if env.trainingActive = false then (.abortedInactive, [])
    else
      match uploadAttempt env run epoch innerStep with
      | (ops, none) => (.succeeded, ops)
      | (ops, some e) =>
        if fuel = 0 then (.raised e, ops)
        else
          let r := uploadLoop env run epoch innerStep fuel
          (r.1, ops ++ r.2)

/-- Embedding of `Miner.upload_model` (miner.py lines 257-373): the
repo-existence check (and creation when absent) precedes the retry loop,
which runs up to 3 attempts.  Returns the outcome and the hub calls in
order.  (The fuel-zero case of the loop models the unreachable fall
through to the final `return False`, which cannot occur with a positive
retry limit.) -/
def upload_model (env : UploadEnv) (run : List Char) (epoch innerStep : ℕ) :
    UploadOutcome × List HubOp :=
  let pre := HubOp.repoExistsCheck ::
    (if env.repoExists then [] else [HubOp.createRepo])
  match (if env.repoExists then none else env.createRepoExc) with
  | some e => (.raised e, pre)
  | none =>
    let (o, ops) := uploadLoop env run epoch innerStep 3
    (o, pre ++ ops)

/-! ### The TTL cache of misc.py -/

/-- The effective TTL of `ttl_cache` (misc.py lines 67-68): a non-positive
TTL is replaced by 65536. -/
def ttlEffective (ttl : ℚ) : ℚ :=
  if ttl ≤ 0 then 65536 else ttl

/-- The time-bucket hash produced by `_ttl_hash_gen` (misc.py lines
85-101) for a call at time `t`, given the generator's recorded
`start_time`: the floor of the elapsed time since `start_time` divided by
the TTL.  A generator body does not run until its first `next()`, so
`start_time = time.time()` executes at the first call of the wrapped
function, not at decoration: buckets are anchored at that first call. -/
def ttlHash (start ttl t : ℚ) : ℤ :=
  ⌊(t - start) / ttlEffective ttl⌋

/-- Find a key in the recency-ordered cache. -/
def lruFind {κ β : Type} [DecidableEq κ] (k : κ) (l : List (κ × β)) :
    Option β :=
  (l.find? fun p => decide (p.1 = k)).map (·.2)

/-- Remove a key from the cache. -/
def lruErase {κ β : Type} [DecidableEq κ] (k : κ) (l : List (κ × β)) :
    List (κ × β) :=
  l.filter fun p => decide (p.1 ≠ k)

/-- One call through the wrapper returned by `ttl_cache` (misc.py lines
71-80).  `next(hash_gen)` advances the generator: on the very first
advance the generator body assigns `start_time = time.time()` (modelled
as the current call time; the second `time.time()` of the same yield is
the same instant at this granularity), on later advances the recorded
anchor is reused.  The key is the pair of the resulting time bucket and
the argument; an `lru_cache` hit returns the cached value and refreshes
the recency of the entry, a miss invokes the wrapped function, inserts
the new entry and evicts beyond `maxsize`.  The cache is the
recency-ordered entry list, most recent first.  The result carries the
(value, invoked) pair, the anchor after the call, and the new cache. -/
def ttlCall {α β : Type} [DecidableEq α] (f : α → β) (maxsize : ℕ)
    (ttl : ℚ) (anchor : Option ℚ) (st : List ((ℤ × α) × β))
    (t : ℚ) (a : α) :
    (β × Bool) × ℚ × List ((ℤ × α) × β) :=
  let start := anchor.getD t
  let key : ℤ × α := (ttlHash start ttl t, a)
  match lruFind key st with
  | some v => ((v, false), start, (key, v) :: lruErase key st)
  | none =>
    let v := f a
    ((v, true), start, List.take maxsize ((key, v) :: st))

/-- A sequence of calls with their timestamps, starting from a given
anchor state and cache (a freshly decorated function starts at `none`
and `[]`); returns the (value, invoked) pair of every call. -/
def ttlTrace {α β : Type} [DecidableEq α] (f : α → β) (maxsize : ℕ)
    (ttl : ℚ) :
    List (ℚ × α) → Option ℚ → List ((ℤ × α) × β) → List (β × Bool)
  | [], _, _ => []
  | (t, a) :: rest, anchor, st =>
    let (r, start, st') := ttlCall f maxsize ttl anchor st t a
    r :: ttlTrace f maxsize ttl rest (some start) st'

/-! ### Validator integrity scoring (reward.py) -/

/-- Outcomes of the effectful operations of `score_uid`: the tracked
repository of the uid, the two most recent commits (identifier and
creation time in epoch seconds), the claimed block list of the latest
checkpoint, the per-block outcome of the training replay, and the outcome
of the similarity computation. -/
structure ScoreUidEnv where
  trackedRepo : Option String
  latestCommit : String
  latestCreatedAt : ℤ
  prevCreatedAt : ℤ
  blocks : List ℤ
  replayBlock : ℤ → Option PyExc
  similarity : Except PyExc ℚ

/-- The replay loop over the claimed blocks (reward.py lines 175-202):
the first raising block aborts the loop with its exception. -/
def replayBlocks (f : ℤ → Option PyExc) : List ℤ → Option PyExc
  | [] => none
  | b :: bs =>
    match f b with
    | some e => some e
    | none => replayBlocks f bs

/-- The possible return values of `score_uid`: the plain int 0 when no
repository is tracked, the tensor-wrapped fallback reward, or the 4-tuple
of the normal path. -/
inductive ScoreUidResult where
  | zero
  | tensor (q : ℚ)
  | tuple (reward : ℚ) (commit : String) (timeDelta : ℤ) (blocks : List ℤ)
deriving DecidableEq

/-- Embedding of `score_uid` (reward.py lines 143-220): no tracked
repository returns 0; an exception anywhere in the replay loop returns a
tensor wrapping 1.0; otherwise the 4-tuple is returned, with the reward
falling back to 1.0 when the similarity computation raises.  The time
delta is the seconds component of the timedelta between the two commit
times (Python `.seconds`, i.e. the total difference modulo 86400 with the
sign of the divisor). -/
def score_uid (env : ScoreUidEnv) : ScoreUidResult :=
  match env.trackedRepo with
  | none => .zero
  | some _ =>
    match replayBlocks env.replayBlock env.blocks with
    | some _ => .tensor 1
    | none =>
      let reward := match env.similarity with
        | .ok q => q
        | .error _ => 1
      .tuple reward env.latestCommit
        ((env.latestCreatedAt - env.prevCreatedAt) % 86400) env.blocks

/-! ### Concrete scenario inputs used by the claim theorems -/

/-- A fully successful miner round: averaging succeeds, the weight sample
changes and contains no NaN value. -/
def c1RoundEnv : MinerRoundEnv :=
  { clipGrad := none, gradStep := .ok (), notifyUsed := none,
    outerStep := none, updateMainParam := none, zeroGrad := none,
    initialWeights := List.replicate 10 (PyFloat.fin 1),
    finalWeights := List.replicate 10 (PyFloat.fin 2) }

/-- A production miner at epoch 4, inner step 7. -/
def c1State : MinerState :=
  { progress := { epoch := 4, innerStep := 7, samplesAccumulated := 12 },
    trainingActive := true, trainingStatus := .running,
    uploadInFlight := false, lastAllreduceBlock := none,
    allReduceSuccessStatus := true }

/-- A validator round in which every operation succeeds but the awaited
averaging result is absent. -/
def c2Env : ValidatorEnv :=
  { clipGrad := none, startStep := .ok (), queryForward := none,
    awaitStep := .ok none, notifyUsed := none, outerStep := none,
    updateMainParam := none, zeroGrad := none,
    initialWeights := [], finalWeights := [] }

/-- A weight sample that is bit-identical before and after the outer step
and contains exactly one NaN value. -/
def c3Sample : List PyFloat :=
  PyFloat.nan :: List.replicate 9 (PyFloat.fin 1)

/-- A changed, NaN-free weight-sample pair. -/
def c3Before : List PyFloat := List.replicate 10 (PyFloat.fin 3)

/-- The after half of the changed pair. -/
def c3After : List PyFloat :=
  PyFloat.fin 4 :: List.replicate 9 (PyFloat.fin 3)

/-- A scoring input with participating, failed, client-mode and unmapped
peers. -/
def c4Input : ScoresInput :=
  { participatingPeers := ["pA", "pB", "pC"],
    failedPeers := ["pB", "pD"],
    peeridsToUids := [("pA", 1), ("pB", 2), ("pC", 3), ("pD", 4)],
    modes := some ["AveragingMode.NODE", "AveragingMode.CLIENT",
                   "AveragingMode.NODE"],
    bandwidths := some [100, 50, 25] }

/-- A scoring input with two distinct participating UIDs, one reporting
client mode, and positive bandwidths. -/
def c5Input : ScoresInput :=
  { participatingPeers := ["a", "b"],
    failedPeers := [],
    peeridsToUids := [("a", 10), ("b", 20)],
    modes := some ["AveragingMode.NODE", "AveragingMode.CLIENT"],
    bandwidths := some [3, 4] }

/-- A miner about to run a failing AllReduce round. -/
def c6State : MinerState :=
  { progress := { epoch := 2, innerStep := 5, samplesAccumulated := 3 },
    trainingActive := true, trainingStatus := .running,
    uploadInFlight := false, lastAllreduceBlock := none,
    allReduceSuccessStatus := true }

/-- An upload invoked while training is paused, against an existing
repository. -/
def c7Env : UploadEnv :=
  { repoExists := true, createRepoExc := none, trainingActive := false,
    saveExc := none, uploadExc := none, listRefsExc := none, tags := [] }

/-- The run id of the concrete upload scenario. -/
def c8Run : List Char := ['r', 'u', 'n']

/-- A successful upload attempt at epoch 5, inner step 2, over a tag set
holding the None sentinel, a later-epoch tag, the tag about to be created
and an earlier-epoch tag. -/
def c8Env : UploadEnv :=
  { repoExists := true, createRepoExc := none, trainingActive := true,
    saveExc := none, uploadExc := none, listRefsExc := none,
    tags := [strNone,
             c8Run ++ '.' :: decChars 7 ++ '.' :: decChars 3,
             tagName c8Run 5 2,
             c8Run ++ '.' :: decChars 4 ++ '.' :: decChars 9] }

/-- A score replay environment whose repository exists, whose replay
succeeds on every claimed block and whose similarity computation
raises. -/
def c10Env : ScoreUidEnv :=
  { trackedRepo := some "miner/repo", latestCommit := "abc",
    latestCreatedAt := 1000, prevCreatedAt := 400, blocks := [3, 4],
    replayBlock := fun _ => none, similarity := .error .generic }

/-- The same environment with a replay that raises on the second claimed
block. -/
def c10FailEnv : ScoreUidEnv :=
  { trackedRepo := some "miner/repo", latestCommit := "abc",
    latestCreatedAt := 1000, prevCreatedAt := 400, blocks := [3, 4],
    replayBlock := fun b => if b = 4 then some .generic else none,
    similarity := .ok (9 / 10) }

/-! ### Helper lemmas -/

/-- A float other than NaN compares equal to itself. -/
theorem PyFloat.pyEq_self {a : PyFloat} (h : a ≠ PyFloat.nan) :
    a.pyEq a = true := by
  cases a with
  | fin q => simp [PyFloat.pyEq]
  | nan => exact absurd rfl h

/-- A NaN-free list compares equal to itself under Python float list
equality. -/
theorem pyListEq_self {l : List PyFloat} (h : nanCount l = 0) :
    pyListEq l l = true := by
  induction l with
  | nil => rfl
  | cons a t ih =>
    have hc : t.countP (fun x => decide (x = PyFloat.nan))
        + (if a = PyFloat.nan then 1 else 0) = 0 := by
      simpa [nanCount, List.countP_cons] using h
    have ha : a ≠ PyFloat.nan := by
      intro hAn
      simp [hAn] at hc
    have ht : nanCount t = 0 := by
      unfold nanCount
      simpa [ha] using hc
    have := ih ht
    simp only [pyListEq, List.zip_cons_cons, List.all_cons,
      List.length_cons] at this ⊢
    simp only [Bool.and_eq_true, beq_iff_eq] at this ⊢
    exact ⟨by simp, PyFloat.pyEq_self ha, this.2⟩

/-- Behaviour of the miner finalization when the state entering it has
training paused: training is active afterwards exactly when the
completion value is the boolean True, and the completion value is
returned unchanged. -/
theorem minerFinalize_trainingActive (st : MinerState) (c : PyVal) (blk : ℕ)
    (h : st.trainingActive = false) :
    (minerFinalize st c blk).1.trainingActive = c.isBoolTrue
    ∧ (minerFinalize st c blk).2 = c := by
  by_cases hb : c.isBoolTrue = true
  · simp [minerFinalize, hb]
  · have hb' : c.isBoolTrue = false := by
      cases hcb : c.isBoolTrue
      · rfl
      · exact absurd hcb hb
    simp [minerFinalize, hb', h]

/-- The miner AllReduce handler as one finalization application: the
state entering the finally clause and the completion value it tests. -/
theorem all_reduce_eq (st : MinerState) (preExc : Option PyExc)
    (delegate : Except PyExc PyVal) (blk : ℕ) :
    all_reduce st preExc delegate blk
      = minerFinalize
          { st with
            uploadInFlight := false,
            trainingActive := false,
            trainingStatus := .paused,
            progress := if preExc.isSome then st.progress
                        else inner_optimizer_step st.progress }
          (match preExc, delegate with
           | some _, _ => PyVal.pyBool false
           | none, .ok c => if c.truthy then c else PyVal.pyBool false
           | none, .error _ => PyVal.pyBool false) blk := by
  cases preExc <;> cases delegate <;> rfl

/-- Four disjoint boolean predicates that cover every element partition
the length of a list among their counts. -/
theorem countP_four {α : Type} (p q r s : α → Bool) (l : List α)
    (h : ∀ a ∈ l,
      (p a).toNat + (q a).toNat + (r a).toNat + (s a).toNat = 1) :
    l.countP p + l.countP q + l.countP r + l.countP s = l.length := by
  induction l with
  | nil => simp
  | cons a t ih =>
    have ha := h a (List.mem_cons_self a t)
    have ht := ih (fun b hb => h b (List.mem_cons_of_mem a hb))
    simp only [List.countP_cons, List.length_cons]
    cases hp : p a <;> cases hq : q a <;> cases hr : r a <;> cases hs : s a <;>
      simp [hp, hq, hr, hs] at ha ⊢ <;> omega

/-- Lookup in an association list with pairwise distinct keys finds the
value of any member pair. -/
theorem lookup_eq_of_nodup {α : Type} :
    ∀ (l : List (PUid × α)), (l.map Prod.fst).Nodup →
      ∀ {k : PUid} {v : α}, (k, v) ∈ l → l.lookup k = some v := by
  intro l
  induction l with
  | nil => intro _ k v hm; cases hm
  | cons p t ih =>
    rcases p with ⟨k', v'⟩
    intro hnd k v hm
    simp only [List.map_cons, List.nodup_cons] at hnd
    rcases List.mem_cons.mp hm with h | h
    · rw [show k = k' from (Prod.mk.injEq _ _ _ _ ▸ h).1,
        show v = v' from (Prod.mk.injEq _ _ _ _ ▸ h).2]
      simp [List.lookup]
    · have hk : (k == k') = false := by
        have hne : k ≠ k' := by
          intro he
          exact hnd.1 (he ▸ (List.mem_map.mpr ⟨(k, v), h, rfl⟩))
        simpa using hne
      simp only [List.lookup, hk]
      exact ih hnd.2 h

/-- The positionally matching pair of two lists is a member of their
zip. -/
theorem zip_get_mem {α β : Type} :
    ∀ (l1 : List α) (l2 : List β) (i : ℕ) (h1 : i < l1.length)
      (h2 : i < l2.length),
      (l1.get ⟨i, h1⟩, l2.get ⟨i, h2⟩) ∈ l1.zip l2 := by
  intro l1
  induction l1 with
  | nil => intro l2 i h1 _; simp at h1
  | cons a t ih =>
    intro l2 i h1 h2
    cases l2 with
    | nil => simp at h2
    | cons b s =>
      cases i with
      | zero => simp
      | succ j =>
        simp only [List.zip_cons_cons, List.get_cons_succ]
        exact List.mem_cons_of_mem _ (ih s j _ _)

/-- Dictionary built by inserting one entry per position of a
distinct-key list: looking up the key at a position returns the value at
that position, regardless of insertion order. -/
theorem lastLookup_zip {α : Type} (keys : List PUid) (vals : List α)
    (hnd : keys.Nodup) (hlen : keys.length ≤ vals.length)
    (i : ℕ) (hi : i < keys.length) (hiv : i < vals.length) :
    lastLookup (keys.zip vals) (keys.get ⟨i, hi⟩)
      = some (vals.get ⟨i, hiv⟩) := by
  apply lookup_eq_of_nodup
  · rw [List.map_reverse]
    rw [List.map_fst_zip keys vals hlen]
    exact List.nodup_reverse.mpr hnd
  · rw [List.mem_reverse]
    exact zip_get_mem keys vals i hi hiv

/-- The seed of a left max fold bounds the fold. -/
theorem foldl_max_seed : ∀ (l : List ℚ) (b : ℚ), b ≤ l.foldl max b := by
  intro l
  induction l with
  | nil => intro b; exact le_refl b
  | cons c t ih =>
    intro b
    exact le_trans (le_max_left b c) (ih (max b c))

/-- Every member of the list bounds below a left max fold over it. -/
theorem mem_le_foldl_max : ∀ (l : List ℚ) (b x : ℚ), x ∈ l →
    x ≤ l.foldl max b := by
  intro l
  induction l with
  | nil => intro b x hx; cases hx
  | cons c t ih =>
    intro b x hx
    rcases List.mem_cons.mp hx with h | h
    · subst h
      exact le_trans (le_max_right b x) (foldl_max_seed t (max b x))
    · exact ih (max b c) x h

/-- Every member of a supplied bandwidth list is bounded by the
normalizer. -/
theorem le_maxBandwidth (inp : ScoresInput) (bs : List ℚ)
    (hbs : inp.bandwidths = some bs) (x : ℚ) (hx : x ∈ bs) :
    x ≤ maxBandwidth inp := by
  rcases bs with _ | ⟨b0, rest⟩
  · cases hx
  · simp only [maxBandwidth, hbs]
    rcases List.mem_cons.mp hx with h | h
    · subst h
      exact foldl_max_seed rest x
    · exact mem_le_foldl_max rest b0 x h

/-- Two calls separated by strictly more than one TTL fall into distinct
time buckets. -/
theorem ttlHash_lt (start ttl t1 t2 : ℚ) (httl : 0 < ttl)
    (h : t1 + ttl < t2) :
    ttlHash start ttl t1 < ttlHash start ttl t2 := by
  unfold ttlHash ttlEffective
  rw [if_neg (not_le.mpr httl)]
  have hadd : (t1 - start) / ttl + 1 = (t1 - start + ttl) / ttl := by
    field_simp
  have hx : (t1 - start) / ttl + 1 ≤ (t2 - start) / ttl := by
    rw [hadd]
    exact (div_le_div_right httl).mpr (by linarith)
  calc ⌊(t1 - start) / ttl⌋ < ⌊(t1 - start) / ttl⌋ + 1 := by omega
    _ = ⌊(t1 - start) / ttl + 1⌋ := (Int.floor_add_one _).symm
    _ ≤ ⌊(t2 - start) / ttl⌋ := Int.floor_le_floor hx

/-- Splitting never produces an empty part list. -/
theorem splitDots_ne_nil : ∀ l : List Char, splitDots l ≠ [] := by
  intro l
  induction l with
  | nil => simp [splitDots]
  | cons c cs ih =>
    unfold splitDots
    rcases hs : splitDots cs with _ | ⟨h, t⟩
    · simp
    · by_cases hc : c = '.' <;> simp [hc]

/-- The parts of any string form a cons cell. -/
theorem splitDots_exists_cons (l : List Char) :
    ∃ h t, splitDots l = h :: t := by
  rcases hq : splitDots l with _ | ⟨x, y⟩
  · exact absurd hq (splitDots_ne_nil l)
  · exact ⟨x, y, rfl⟩

/-- The one-step equation of the splitter. -/
theorem splitDots_cons (c : Char) (cs : List Char) (h : List Char)
    (t : List (List Char)) (hs : splitDots cs = h :: t) :
    splitDots (c :: cs) = if c = '.' then [] :: h :: t else (c :: h) :: t := by
  conv_lhs => unfold splitDots
  rw [hs]

/-- A dot-free string splits to a single part, itself. -/
theorem splitDots_no_dot : ∀ l : List Char, '.' ∉ l → splitDots l = [l] := by
  intro l
  induction l with
  | nil => intro _; rfl
  | cons c cs ih =>
    intro h
    rw [List.mem_cons] at h
    push_neg at h
    rw [splitDots_cons c cs cs [] (ih h.2), if_neg (Ne.symm h.1)]

/-- Splitting after a dot-free leading segment peels that segment off. -/
theorem splitDots_append : ∀ (a b : List Char), '.' ∉ a →
    splitDots (a ++ '.' :: b) = a :: splitDots b := by
  intro a
  induction a with
  | nil =>
    intro b _
    obtain ⟨h, t, hs⟩ := splitDots_exists_cons b
    show splitDots ('.' :: b) = [] :: splitDots b
    rw [hs, splitDots_cons '.' b h t hs, if_pos rfl]
  | cons c cs ih =>
    intro b hnd
    rw [List.mem_cons] at hnd
    push_neg at hnd
    obtain ⟨h, t, hs⟩ := splitDots_exists_cons b
    have hcs := ih b hnd.2
    rw [hs] at hcs
    show splitDots (c :: (cs ++ '.' :: b)) = (c :: cs) :: splitDots b
    rw [hs, splitDots_cons c _ _ _ hcs, if_neg (Ne.symm hnd.1)]

/-- No part produced by splitting contains a dot. -/
theorem splitDots_parts_no_dot :
    ∀ l : List Char, ∀ p ∈ splitDots l, '.' ∉ p := by
  intro l
  induction l with
  | nil =>
    intro p hp
    simp only [splitDots, List.mem_singleton] at hp
    subst hp
    simp
  | cons c cs ih =>
    intro p hp
    obtain ⟨h, t, hs⟩ := splitDots_exists_cons cs
    rw [splitDots_cons c cs h t hs] at hp
    by_cases hc : c = '.'
    · rw [if_pos hc] at hp
      rcases List.mem_cons.mp hp with h1 | h1
      · subst h1
        simp
      · exact ih p (by rw [hs]; exact h1)
    · rw [if_neg hc] at hp
      rcases List.mem_cons.mp hp with h1 | h1
      · subst h1
        intro hmem
        rcases List.mem_cons.mp hmem with h2 | h2
        · exact hc h2.symm
        · exact ih h (by rw [hs]; exact List.mem_cons_self h t) h2
      · exact ih p (by rw [hs]; exact List.mem_cons_of_mem h h1)

/-- Digit characters are not the dot. -/
theorem digitChar_ne_dot (d : ℕ) : digitChar d ≠ '.' := by
  unfold digitChar
  split_ifs <;> decide

/-- Digit characters are not a sign. -/
theorem digitChar_ne_sign (d : ℕ) : digitChar d ≠ '-' ∧ digitChar d ≠ '+' := by
  unfold digitChar
  split_ifs <;> exact ⟨by decide, by decide⟩

/-- The fueled digit function agrees with the library digits once the
fuel covers the number. -/
theorem decDigitsAux_eq_digits :
    ∀ (fuel n : ℕ), n ≤ fuel → decDigitsAux fuel n = Nat.digits 10 n := by
  intro fuel
  induction fuel with
  | zero =>
    intro n hn
    have h0 : n = 0 := by omega
    subst h0
    simp [decDigitsAux]
  | succ f ih =>
    intro n hn
    by_cases h0 : n = 0
    · subst h0
      simp [decDigitsAux]
    · have hlt : n / 10 < n := Nat.div_lt_self (by omega) (by norm_num)
      have hrec := ih (n / 10) (by omega)
      unfold decDigitsAux
      rw [if_neg h0, hrec,
        ← Nat.digits_def' (by norm_num : (1 : ℕ) < 10) (show 0 < n by omega)]

/-- The rendering in terms of the library digits. -/
theorem decChars_eq (n : ℕ) :
    decChars n
      = if n = 0 then ['0'] else ((Nat.digits 10 n).reverse).map digitChar := by
  unfold decChars
  rw [decDigitsAux_eq_digits n n le_rfl]

/-- Decimal renderings contain no dot. -/
theorem decChars_no_dot (n : ℕ) : '.' ∉ decChars n := by
  rw [decChars_eq n]
  split_ifs with h
  · decide
  · intro hm
    rcases List.mem_map.mp hm with ⟨d, _, hd⟩
    exact digitChar_ne_dot d hd

/-- Decimal renderings are nonempty. -/
theorem decChars_ne_nil (n : ℕ) : decChars n ≠ [] := by
  rw [decChars_eq n]
  split_ifs with h
  · simp
  · simp [Nat.digits_ne_nil_iff_ne_zero.mpr h]

/-- Splitting the tag about to be created, for a dot-free run id. -/
theorem splitDots_tagName (run : List Char) (e i : ℕ) (h : '.' ∉ run) :
    splitDots (tagName run e i) = [run, decChars e, decChars i] := by
  unfold tagName
  rw [List.append_assoc, List.cons_append,
    splitDots_append run _ h,
    splitDots_append (decChars e) _ (decChars_no_dot e),
    splitDots_no_dot (decChars i) (decChars_no_dot i)]

/-- Parsing inverts rendering on each digit. -/
theorem charDigit_digitChar : ∀ d < 10, charDigit? (digitChar d) = some d := by
  decide

/-- The digit accumulator over a rendered digit list. -/
theorem parseNatCore_map_digitChar : ∀ (E : List ℕ) (acc : ℕ),
    (∀ d ∈ E, d < 10) →
    parseNatCore acc (E.map digitChar)
      = some (E.foldl (fun a d => 10 * a + d) acc) := by
  intro E
  induction E with
  | nil => intro acc _; rfl
  | cons d E' ih =>
    intro acc h
    have hd := h d (List.mem_cons_self d E')
    simp only [List.map_cons, parseNatCore, charDigit_digitChar d hd]
    exact ih (10 * acc + d) (fun x hx => h x (List.mem_cons_of_mem d hx))

/-- The big-endian digit accumulator equals the little-endian digit
value. -/
theorem foldl_reverse_ofDigits : ∀ (L : List ℕ) (acc : ℕ),
    (L.reverse).foldl (fun a d => 10 * a + d) acc
      = acc * 10 ^ L.length + Nat.ofDigits 10 L := by
  intro L
  induction L with
  | nil => intro acc; simp [Nat.ofDigits]
  | cons d L' ih =>
    intro acc
    simp only [List.reverse_cons, List.foldl_append, List.foldl_cons,
      List.foldl_nil, ih acc, List.length_cons, Nat.ofDigits_cons]
    ring

/-- Parsing a nonempty list enters the accumulator. -/
theorem parseNatChars_eq (l : List Char) (h : l ≠ []) :
    parseNatChars l = parseNatCore 0 l := by
  rcases l with _ | ⟨c, cs⟩
  · exact absurd rfl h
  · rfl

/-- The decimal parse of a decimal rendering is the rendered number. -/
theorem parseNatChars_decChars (n : ℕ) : parseNatChars (decChars n) = some n := by
  by_cases h : n = 0
  · subst h
    rfl
  · have hdig : ∀ d ∈ Nat.digits 10 n, d < 10 :=
      fun d hd => Nat.digits_lt_base (by norm_num) hd
    have hform : decChars n = ((Nat.digits 10 n).reverse).map digitChar := by
      rw [decChars_eq n, if_neg h]
    rw [parseNatChars_eq _ (decChars_ne_nil n), hform,
      parseNatCore_map_digitChar _ 0
        (fun d hd => hdig d (List.mem_reverse.mp hd)),
      foldl_reverse_ofDigits]
    simp [Nat.ofDigits_digits]

/-- The Python int() of a decimal rendering is the rendered number. -/
theorem pyInt_decChars (n : ℕ) : pyInt (decChars n) = some (n : ℤ) := by
  rcases hdc : decChars n with _ | ⟨c, cs⟩
  · exact absurd hdc (decChars_ne_nil n)
  · have hcmem : c ∈ decChars n := by
      rw [hdc]
      exact List.mem_cons_self c cs
    have hcne : c ≠ '-' ∧ c ≠ '+' := by
      rw [decChars_eq n] at hcmem
      split_ifs at hcmem with h
      · rw [List.mem_singleton] at hcmem
        subst hcmem
        exact ⟨by decide, by decide⟩
      · rcases List.mem_map.mp hcmem with ⟨d, _, hd⟩
        rw [← hd]
        exact digitChar_ne_sign d
    have hp : parseNatChars (c :: cs) = some n := by
      rw [← hdc]
      exact parseNatChars_decChars n
    show pyInt (c :: cs) = some (n : ℤ)
    simp [pyInt, hcne.1, hcne.2, hp]

/-- The None sentinel is always deleted. -/
theorem pyShouldDelete_strNone (run : List Char) (e i : ℕ) :
    pyShouldDelete run e i strNone = .ok true := by
  simp [pyShouldDelete]

/-- A same-run tag of a strictly later epoch is deleted. -/
theorem pyShouldDelete_later (run : List Char) (e i : ℕ)
    (t es s2 : List Char) (k : ℤ)
    (hsplit : splitDots t = [run, es, s2]) (hparse : pyInt es = some k)
    (hk : (e : ℤ) < k) :
    pyShouldDelete run e i t = .ok true := by
  by_cases ht : t = strNone
  · simp [pyShouldDelete, ht]
  · simp [pyShouldDelete, ht, hsplit, hparse, hk]

/-- The tag equal to the one about to be created is deleted, whenever its
deletion condition evaluates without error. -/
theorem pyShouldDelete_self (run : List Char) (e i : ℕ)
    (hok : (pyShouldDelete run e i (tagName run e i)).isOk) :
    pyShouldDelete run e i (tagName run e i) = .ok true := by
  have key : pyShouldDelete run e i (tagName run e i) = .ok true
      ∨ pyShouldDelete run e i (tagName run e i)
          = .error PyExc.valueError := by
    unfold pyShouldDelete
    split
    · exact Or.inl rfl
    · split
      · split
        · split
          · exact Or.inr rfl
          · split
            · exact Or.inl rfl
            · simp
        · simp
      · simp
  rcases key with h | h
  · exact h
  · rw [h] at hok
    simp [Except.isOk, Except.toBool] at hok

/-- A same-run tag of a strictly earlier epoch is not deleted. -/
theorem pyShouldDelete_earlier (run : List Char) (e i : ℕ)
    (t es s2 : List Char) (k : ℤ)
    (hsplit : splitDots t = [run, es, s2]) (hparse : pyInt es = some k)
    (hk : k < (e : ℤ)) :
    pyShouldDelete run e i t = .ok false := by
  have hrun_nodot : '.' ∉ run :=
    splitDots_parts_no_dot t run (by rw [hsplit]; simp)
  have htne : t ≠ strNone := by
    intro he
    rw [he, splitDots_no_dot strNone (by decide)] at hsplit
    simp at hsplit
  have htag : t ≠ tagName run e i := by
    intro he
    rw [he, splitDots_tagName run e i hrun_nodot] at hsplit
    simp only [List.cons.injEq, and_true] at hsplit
    obtain ⟨-, h2, -⟩ := hsplit
    rw [← h2, pyInt_decChars] at hparse
    have : (e : ℤ) = k := by
      injection hparse
    omega
  have hnk : ¬ (k > (e : ℤ)) := by omega
  simp [pyShouldDelete, htne, hsplit, hparse, hnk, htag]

/-- The tag loop on an error-free tag list deletes exactly the tags whose
condition holds, in list order. -/
theorem processTags_ok (run : List Char) (e i : ℕ) :
    ∀ tags : List (List Char),
      (∀ t ∈ tags, (pyShouldDelete run e i t).isOk) →
      processTags run e i tags
        = .ok ((tags.filter (shouldDeleteB run e i)).map HubOp.deleteTag) := by
  intro tags
  induction tags with
  | nil => intro _; rfl
  | cons t ts ih =>
    intro h
    have hts := ih (fun x hx => h x (List.mem_cons_of_mem t hx))
    rcases hc : pyShouldDelete run e i t with e' | b
    · have hok := h t (List.mem_cons_self t ts)
      rw [hc] at hok
      simp [Except.isOk, Except.toBool] at hok
    · cases b
      · unfold processTags
        rw [hc, hts]
        simp [List.filter_cons, shouldDeleteB, hc]
      · unfold processTags
        rw [hc, hts]
        simp [List.filter_cons, shouldDeleteB, hc]

/-! ### Claim theorems -/

/-- C1.  The spec claims a fully successful miner round advances
`local_progress.epoch` from 4 to 5, resets the inner-step and sample
counters and returns a response whose completion flag is true.  On the
code, the delegated call raises a TypeError (three positional arguments
against a one-parameter handler), so completion is forced to the boolean
False and the finalization leaves the epoch at 4 with the inner step at 8
(from the pre-averaging optimizer flush); and even granting the delegated
call, the handler reports success as the string value spelled True, which
fails the identity test `completion is True` of the finalization, so the
epoch still stays at 4 and training is not resumed. -/
theorem c1_miner_round_divergence :
    run_miner_allreduce c1RoundEnv = Except.ok (PyVal.pyStr "True")
    ∧ minerDelegateCall c1RoundEnv = Except.error PyExc.typeError
    ∧ (all_reduce c1State none (minerDelegateCall c1RoundEnv) 100).1.progress
        = { epoch := 4, innerStep := 8, samplesAccumulated := 0 }
    ∧ (all_reduce c1State none (minerDelegateCall c1RoundEnv) 100).2
        = PyVal.pyBool false
    ∧ (all_reduce c1State none (Except.ok (PyVal.pyStr "True")) 100).1.progress
        = { epoch := 4, innerStep := 8, samplesAccumulated := 0 }
    ∧ (all_reduce c1State none (Except.ok (PyVal.pyStr "True")) 100).2
        = PyVal.pyStr "True"
    ∧ PyVal.isBoolTrue (PyVal.pyStr "True") = false
    ∧ (all_reduce c1State none
        (Except.ok (PyVal.pyStr "True")) 100).1.trainingActive = false := by
  decide

/-- C2.  `run_validator_allreduce` never raises to its caller: its result
is a plain pair for every environment (the embedding is the total
catch-all wrapper around `validatorBody`); any exception in the body
yields `(false, empty)`; an absent averaging result yields
`(false, empty)`; and the finalization cancels the averaging future
exactly when it was started, in every case. -/
theorem c2_run_validator_allreduce_spec (env : ValidatorEnv) :
    (run_validator_allreduce env).2 = futureStarted env
    ∧ (∀ e, validatorBody env = .error e →
        (run_validator_allreduce env).1 = (false, none))
    ∧ (env.clipGrad = none → env.startStep = .ok () →
        env.queryForward = none → env.awaitStep = .ok none →
        (run_validator_allreduce env).1 = (false, none)) := by
  refine ⟨rfl, ?_, ?_⟩
  · intro e he
    simp [run_validator_allreduce, he]
  · intro h1 h2 h3 h4
    unfold run_validator_allreduce validatorBody
    rw [h1, h2, h3, h4]
    rfl

/-- C2 witness: a concrete environment in which the awaited averaging
result is absent. -/
theorem c2_run_validator_allreduce_spec_witness :
    (run_validator_allreduce c2Env).1 = (false, none)
    ∧ (run_validator_allreduce c2Env).2 = true := by
  refine ⟨(c2_run_validator_allreduce_spec c2Env).2.2 rfl rfl rfl rfl, ?_⟩
  exact ((c2_run_validator_allreduce_spec c2Env).1).trans (by decide)

/-- C3 counterexample.  The claim states that `_validate_weight_update`
fails whenever the sampled weights are identical before and after the
outer step; here the sample is bit-identical before and after (and has a
single NaN entry), yet validation succeeds, because Python float equality
never holds for a list containing NaN. -/
theorem c3_claim_counterexample :
    validate_weight_update c3Sample c3Sample = Except.ok true
    ∧ nanCount c3Sample = 1 := by
  decide

/-- C3 amended.  `_validate_weight_update` fails exactly when the samples
compare equal under Python float list equality (which coincides with
bit-identity for NaN-free samples but never holds for a sample containing
NaN) or when more than one post-step value is NaN; a NaN-free bit-identical
pair fails with the weights-unchanged error, and a pair that differs under
float equality with at most one NaN succeeds. -/
theorem c3_validate_weight_update_amended (initial final : List PyFloat) :
    ((∃ e, validate_weight_update initial final = Except.error e) ↔
      pyListEq final initial = true ∨ nanCount final > 1)
    ∧ (nanCount final = 0 → final = initial →
        validate_weight_update initial final
          = Except.error ValidationError.weightsUnchanged)
    ∧ (pyListEq final initial = false → nanCount final ≤ 1 →
        validate_weight_update initial final = Except.ok true) := by
  refine ⟨?_, ?_, ?_⟩
  · by_cases h1 : pyListEq final initial = true
    · simp [validate_weight_update, h1]
    · by_cases h2 : nanCount final > 1 <;>
        simp [validate_weight_update, h1, h2]
  · intro h0 hidn
    subst hidn
    simp [validate_weight_update, pyListEq_self h0]
  · intro h1 h2
    have h2' : ¬ nanCount final > 1 := by omega
    simp [validate_weight_update, h1, h2']

/-- C3 witness: a NaN-free bit-identical pair fails, and a changed NaN-free
pair succeeds. -/
theorem c3_validate_weight_update_amended_witness :
    validate_weight_update c3Before c3Before
      = Except.error ValidationError.weightsUnchanged
    ∧ validate_weight_update c3Before c3After = Except.ok true := by
  refine ⟨(c3_validate_weight_update_amended c3Before c3Before).2.1
      (by decide) rfl, ?_⟩
  exact (c3_validate_weight_update_amended c3Before c3After).2.2
    (by decide) (by decide)

/-- C10.  For a uid with a tracked repository: an exception anywhere in
the replay over the claimed block list yields a tensor wrapping exactly
1.0 instead of propagating; the exception-free path yields the 4-tuple of
reward, latest commit id, time delta and claimed block list; and when the
similarity computation itself raises, the tuple reward falls back to
1.0. -/
theorem c10_score_uid_fallback (env : ScoreUidEnv) (repo : String)
    (h : env.trackedRepo = some repo) :
    (∀ e, replayBlocks env.replayBlock env.blocks = some e →
        score_uid env = .tensor 1)
    ∧ (replayBlocks env.replayBlock env.blocks = none →
        score_uid env = .tuple
          (match env.similarity with | .ok q => q | .error _ => 1)
          env.latestCommit
          ((env.latestCreatedAt - env.prevCreatedAt) % 86400) env.blocks)
    ∧ (∀ e, replayBlocks env.replayBlock env.blocks = none →
        env.similarity = .error e →
        score_uid env = .tuple 1 env.latestCommit
          ((env.latestCreatedAt - env.prevCreatedAt) % 86400) env.blocks) := by
  refine ⟨?_, ?_, ?_⟩
  · intro e he
    simp [score_uid, h, he]
  · intro he
    simp [score_uid, h, he]
  · intro e he hs
    simp [score_uid, h, he, hs]

/-- C10 witness: the replay-failure environment yields the 1.0 tensor and
the similarity-failure environment yields the tuple with the fallback
reward. -/
theorem c10_score_uid_fallback_witness :
    score_uid c10FailEnv = ScoreUidResult.tensor 1
    ∧ score_uid c10Env
        = ScoreUidResult.tuple 1 "abc" 600 [3, 4] := by
  refine ⟨(c10_score_uid_fallback c10FailEnv "miner/repo" rfl).1
      PyExc.generic rfl, ?_⟩
  have h := (c10_score_uid_fallback c10Env "miner/repo" rfl).2.2
    PyExc.generic rfl rfl
  simpa using h

/-- C4.  For every call (with mode and bandwidth lists, when supplied,
parallel to the participating-peer list): the status dict is keyed by
exactly the 256 UIDs 0..255, each assigned the single status computed by
the loop body; the four status buckets partition the 256 UIDs; a UID in
neither the participating nor the failed set scores 0.0 with status
NON_PARTICIPATING; and a UID in the failed set scores 0.0 with status
FAIL. -/
theorem c4_scores_partition (inp : ScoresInput)
    (_hm : ∀ ms, inp.modes = some ms →
      ms.length = inp.participatingPeers.length)
    (_hb : ∀ bs, inp.bandwidths = some bs →
      bs.length = inp.participatingPeers.length) :
    ((calculate_allreduce_scores inp).2.1.map Prod.fst = List.range 256)
    ∧ ((calculate_allreduce_scores inp).2.1
        = (List.range 256).map (fun u => (u, (statusAndScore inp u).1)))
    ∧ ((List.range 256).countP
          (fun u => (statusAndScore inp u).1 = Status.success)
        + (List.range 256).countP
          (fun u => (statusAndScore inp u).1 = Status.wrongMode)
        + (List.range 256).countP
          (fun u => (statusAndScore inp u).1 = Status.fail)
        + (List.range 256).countP
          (fun u => (statusAndScore inp u).1 = Status.nonParticipating)
        = 256)
    ∧ (∀ uid : ℕ, PUid.uid uid ∉ participatingUids inp →
        PUid.uid uid ∉ failedUids inp →
        statusAndScore inp uid = (Status.nonParticipating, 0))
    ∧ (∀ uid : ℕ, PUid.uid uid ∈ failedUids inp →
        statusAndScore inp uid = (Status.fail, 0)) := by
  refine ⟨?_, rfl, ?_, ?_, ?_⟩
  · simp only [calculate_allreduce_scores, List.map_map]
    rw [show (Prod.fst ∘ fun u : ℕ => (u, (statusAndScore inp u).1))
        = fun u => u from rfl]
    simp
  · have h := countP_four
      (fun u => decide ((statusAndScore inp u).1 = Status.success))
      (fun u => decide ((statusAndScore inp u).1 = Status.wrongMode))
      (fun u => decide ((statusAndScore inp u).1 = Status.fail))
      (fun u => decide ((statusAndScore inp u).1 = Status.nonParticipating))
      (List.range 256)
      (by
        intro a _
        rcases hs : (statusAndScore inp a).1 <;> simp [hs])
    simpa using h
  · intro uid h1 h2
    simp [statusAndScore, h1, h2]
  · intro uid h
    simp [statusAndScore, h]

/-- C4 witness: the concrete scoring input. -/
theorem c4_scores_partition_witness :
    ((List.range 256).countP
        (fun u => (statusAndScore c4Input u).1 = Status.success)
      + (List.range 256).countP
        (fun u => (statusAndScore c4Input u).1 = Status.wrongMode)
      + (List.range 256).countP
        (fun u => (statusAndScore c4Input u).1 = Status.fail)
      + (List.range 256).countP
        (fun u => (statusAndScore c4Input u).1 = Status.nonParticipating)
      = 256)
    ∧ statusAndScore c4Input 0 = (Status.nonParticipating, 0)
    ∧ statusAndScore c4Input 2 = (Status.fail, 0) := by
  have h := c4_scores_partition c4Input
    (by intro ms hms; cases hms; rfl)
    (by intro bs hbs; cases hbs; rfl)
  exact ⟨h.2.2.1, h.2.2.2.1 0 (by decide) (by decide),
    h.2.2.2.2 2 (by decide)⟩

/-- C5.  For a participating, non-failed UID at position i of the
participating list (with distinct participating UIDs and a parallel mode
list): when its reported mode is the client-mode sentinel its score is
exactly 0.0 with status WRONG_MODE, for every bandwidth input; otherwise,
when a parallel list of positive bandwidths is supplied, its score is
1.0 + 0.5 * (its bandwidth / max bandwidth across participants), which
lies in [1.0, 1.5]. -/
theorem c5_success_score (inp : ScoresInput) (ms : List String)
    (i uidN : ℕ)
    (hms : inp.modes = some ms)
    (hmlen : ms.length = inp.participatingPeers.length)
    (hnd : (participatingUids inp).Nodup)
    (hi : i < (participatingUids inp).length)
    (hu : (participatingUids inp).get ⟨i, hi⟩ = PUid.uid uidN)
    (hnf : PUid.uid uidN ∉ failedUids inp) :
    (ms.getD i "" = "AveragingMode.CLIENT" →
      statusAndScore inp uidN = (Status.wrongMode, 0))
    ∧ (∀ bs : List ℚ, inp.bandwidths = some bs →
        bs.length = inp.participatingPeers.length →
        (∀ b ∈ bs, 0 < b) →
        ms.getD i "" ≠ "AveragingMode.CLIENT" →
        statusAndScore inp uidN
          = (Status.success, 1 + (1 / 2) * (bs.getD i 0 / maxBandwidth inp))
        ∧ 1 ≤ (statusAndScore inp uidN).2
        ∧ (statusAndScore inp uidN).2 ≤ 3 / 2) := by
  have hplen : (participatingUids inp).length
      = inp.participatingPeers.length := by
    simp [participatingUids]
  have hmem : PUid.uid uidN ∈ participatingUids inp :=
    hu ▸ List.get_mem _ _ _
  have hmi : i < ms.length := by omega
  have hlkm : lastLookup (uidModes inp) (PUid.uid uidN)
      = some (ms.getD i "") := by
    have := lastLookup_zip (participatingUids inp) ms hnd (by omega) i hi hmi
    rw [hu] at this
    rw [List.getD_eq_get ms "" hmi]
    simpa [uidModes, hms] using this
  constructor
  · intro him
    unfold statusAndScore
    rw [if_pos ⟨hmem, hnf⟩, if_pos ⟨by simp [hms], by rw [hlkm, him]⟩]
  · intro bs hbs hblen hpos him
    have hbi : i < bs.length := by omega
    have hlkb : lastLookup (uidBandwidths inp) (PUid.uid uidN)
        = some (bs.getD i 0) := by
      have := lastLookup_zip (participatingUids inp) bs hnd (by omega) i hi hbi
      rw [hu] at this
      rw [List.getD_eq_get bs 0 hbi]
      simpa [uidBandwidths, hbs] using this
    have hmemD : bs.getD i 0 ∈ bs :=
      List.getD_eq_get bs 0 hbi ▸ List.get_mem _ _ _
    have h0 : (0 : ℚ) < bs.getD i 0 := hpos _ hmemD
    have hmax : bs.getD i 0 ≤ maxBandwidth inp :=
      le_maxBandwidth inp bs hbs _ hmemD
    have hmaxpos : 0 < maxBandwidth inp := lt_of_lt_of_le h0 hmax
    have heval : statusAndScore inp uidN
        = (Status.success, 1 + (1 / 2) * (bs.getD i 0 / maxBandwidth inp)) := by
      unfold statusAndScore
      rw [if_pos ⟨hmem, hnf⟩, if_neg ?_, hbs, hlkb]
      intro hcl
      rw [hlkm] at hcl
      exact him (Option.some.injEq _ _ ▸ hcl.2)
    refine ⟨heval, ?_, ?_⟩
    · rw [heval]
      show 1 ≤ 1 + (1 / 2) * (bs.getD i 0 / maxBandwidth inp)
      have hdiv : 0 ≤ bs.getD i 0 / maxBandwidth inp :=
        div_nonneg (le_of_lt h0) (le_of_lt hmaxpos)
      linarith
    · rw [heval]
      show 1 + (1 / 2) * (bs.getD i 0 / maxBandwidth inp) ≤ 3 / 2
      have hdiv : bs.getD i 0 / maxBandwidth inp ≤ 1 :=
        (div_le_one hmaxpos).mpr hmax
      linarith

/-- C5 witness: both branches at the concrete scoring input — the
client-mode participant at position 1 (UID 20) scores 0.0 WRONG_MODE, and
the node-mode participant at position 0 (UID 10) scores
1.0 + 0.5 * (3 / 4). -/
theorem c5_success_score_witness :
    statusAndScore c5Input 20 = (Status.wrongMode, 0)
    ∧ statusAndScore c5Input 10
        = (Status.success, 1 + (1 / 2) * ((3 : ℚ) / 4)) := by
  constructor
  · exact (c5_success_score c5Input
      ["AveragingMode.NODE", "AveragingMode.CLIENT"] 1 20 rfl (by decide)
      (by decide) (by decide) (by decide) (by decide)).1 (by decide)
  · have h := (c5_success_score c5Input
      ["AveragingMode.NODE", "AveragingMode.CLIENT"] 0 10 rfl (by decide)
      (by decide) (by decide) (by decide) (by decide)).2
      [3, 4] rfl (by decide) (by decide) (by decide)
    have h4 : maxBandwidth c5Input = 4 := by decide
    have := h.1
    rw [h4] at this
    simpa using this

/-- C6 counterexample.  The claim states the handler finalization always
resumes training after a failed round; here a round that fails (the
delegated call raises) returns completion False but leaves the
training-active flag cleared and the status paused. -/
theorem c6_claim_counterexample :
    c6State.trainingActive = true
    ∧ (all_reduce c6State none (Except.error PyExc.allReduce) 50).2
        = PyVal.pyBool false
    ∧ (all_reduce c6State none
        (Except.error PyExc.allReduce) 50).1.trainingActive = false
    ∧ (all_reduce c6State none
        (Except.error PyExc.allReduce) 50).1.trainingStatus
        = TrainingStatus.paused := by
  decide

/-- C6 amended.  For every inbound request and every outcome of the
delegated round, `Miner.all_reduce` returns the response object (the
embedding is total: the `return` in the finally clause swallows even the
re-raised AllReduceError); completion is explicitly the boolean False on
any failure or exception; and the finalization resumes training only when
the completion value is the boolean True — after a failed round, training
remains paused. -/
theorem c6_all_reduce_amended (st : MinerState) (preExc : Option PyExc)
    (delegate : Except PyExc PyVal) (blk : ℕ) :
    ((preExc.isSome ∨ (∃ e, delegate = .error e)
        ∨ (∃ c, delegate = .ok c ∧ c.truthy = false)) →
      (all_reduce st preExc delegate blk).2 = PyVal.pyBool false)
    ∧ (all_reduce st preExc delegate blk).1.trainingActive
        = ((all_reduce st preExc delegate blk).2).isBoolTrue := by
  constructor
  · intro h
    rw [all_reduce_eq]
    cases preExc with
    | some e => exact (minerFinalize_trainingActive _ _ _ rfl).2
    | none =>
      rcases h with h | ⟨e, he⟩ | ⟨c, hc, hf⟩
      · simp at h
      · subst he
        exact (minerFinalize_trainingActive _ _ _ rfl).2
      · subst hc
        have hcomp : (if c.truthy = true then c else PyVal.pyBool false)
            = PyVal.pyBool false := by
          rw [hf]
          simp
        simp only [hcomp]
        exact (minerFinalize_trainingActive _ _ _ rfl).2
  · rw [all_reduce_eq]
    refine ((minerFinalize_trainingActive _ _ _ rfl).1).trans ?_
    rw [(minerFinalize_trainingActive _ _ _ rfl).2]

/-- C6 witness: a concrete failed round under the amended statement. -/
theorem c6_all_reduce_amended_witness :
    (all_reduce c6State none (Except.error PyExc.generic) 9).2
      = PyVal.pyBool false := by
  exact (c6_all_reduce_amended c6State none (Except.error PyExc.generic) 9).1
    (Or.inr (Or.inl ⟨PyExc.generic, rfl⟩))

/-- C7 counterexample.  The claim states that with training inactive,
`upload_model` returns failure without attempting any network call; in
fact it returns failure, but the repo-existence check, a hub network
call, is issued before the training-active flag is consulted. -/
theorem c7_claim_counterexample :
    (upload_model c7Env ['r'] 1 0).1 = UploadOutcome.abortedInactive
    ∧ (upload_model c7Env ['r'] 1 0).2 = [HubOp.repoExistsCheck]
    ∧ [HubOp.repoExistsCheck] ≠ ([] : List HubOp) := by
  decide

/-- C7 amended.  Whenever `upload_model` is invoked while training is not
active, it returns failure on the first retry iteration without saving or
uploading anything: no folder upload, no tag deletion and no tag creation
is attempted; however the repo-existence check (and the creation of the
repository when it is absent) precedes the training-active check and is
performed. -/
theorem c7_upload_model_inactive_amended (env : UploadEnv)
    (run : List Char) (epoch innerStep : ℕ)
    (hact : env.trainingActive = false)
    (hcr : env.repoExists = true ∨ env.createRepoExc = none) :
    (upload_model env run epoch innerStep).1 = .abortedInactive
    ∧ (upload_model env run epoch innerStep).2
        = HubOp.repoExistsCheck ::
          (if env.repoExists then [] else [HubOp.createRepo])
    ∧ HubOp.uploadFolder ∉ (upload_model env run epoch innerStep).2
    ∧ (∀ t, HubOp.deleteTag t ∉ (upload_model env run epoch innerStep).2)
    ∧ (∀ t, HubOp.createTag t ∉ (upload_model env run epoch innerStep).2) := by
  have hloop : uploadLoop env run epoch innerStep 3 = (.abortedInactive, []) := by
    simp [uploadLoop, hact]
  have hmain : upload_model env run epoch innerStep
      = (.abortedInactive,
         HubOp.repoExistsCheck ::
           (if env.repoExists then [] else [HubOp.createRepo])) := by
    rcases hcr with hcr | hcr
    · simp [upload_model, hcr, hloop]
    · cases hre : env.repoExists with
      | true => simp [upload_model, hre, hloop]
      | false => simp [upload_model, hre, hcr, hloop]
  rw [hmain]
  cases hre : env.repoExists <;> simp

/-- C7 witness: the amended statement at the concrete inactive-upload
environment. -/
theorem c7_upload_model_inactive_amended_witness :
    (upload_model c7Env ['x'] 2 1).1 = UploadOutcome.abortedInactive
    ∧ (upload_model c7Env ['x'] 2 1).2
        = HubOp.repoExistsCheck ::
          (if c7Env.repoExists then [] else [HubOp.createRepo]) := by
  have h := c7_upload_model_inactive_amended c7Env ['x'] 2 1 rfl (Or.inl rfl)
  exact ⟨h.1, h.2.1⟩

/-- C9 counterexample.  The claim states that a repeated call with
identical arguments made less than T seconds after the first call returns
the cached value without re-invoking the wrapped function.  The time
buckets are anchored at the wrapped function's overall first call (the
generator assigns its start time lazily); here that first call, with a
different argument, anchors the buckets at t = 0, and the two calls with
identical arguments at t = 11 and t = 13 under T = 12 land in buckets 0
and 1, so the second of them re-invokes the function although they are
only 2 seconds apart. -/
theorem c9_claim_counterexample :
    ((ttlTrace (fun n : ℕ => n) 128 12
        [((0 : ℚ), 0), (11, 1), (13, 1)] none []).map Prod.snd
      = [true, true, true])
    ∧ ((13 : ℚ) - 11 < 12) := by
  have hb0 : ttlHash 0 12 0 = 0 := by
    unfold ttlHash ttlEffective
    norm_num
  have hb1 : ttlHash 0 12 11 = 0 := by
    unfold ttlHash ttlEffective
    norm_num
  have hb2 : ttlHash 0 12 13 = 1 := by
    unfold ttlHash ttlEffective
    norm_num
  have e1 : ttlCall (fun n : ℕ => n) 128 12 none [] 0 0
      = ((0, true), 0, [(((0 : ℤ), 0), 0)]) := by
    simp [ttlCall, lruFind, hb0]
  have hne1 : (((0 : ℤ), (0 : ℕ))) ≠ (((0 : ℤ), (1 : ℕ))) := by decide
  have hne2 : (((0 : ℤ), (1 : ℕ))) ≠ (((1 : ℤ), (1 : ℕ))) := by decide
  have hne3 : (((0 : ℤ), (0 : ℕ))) ≠ (((1 : ℤ), (1 : ℕ))) := by decide
  have e2 : ttlCall (fun n : ℕ => n) 128 12 (some 0) [(((0 : ℤ), 0), 0)] 11 1
      = ((1, true), 0, [(((0 : ℤ), 1), 1), (((0 : ℤ), 0), 0)]) := by
    simp [ttlCall, lruFind, hb1, hne1, -Prod.mk_zero_zero]
  have e3 : ttlCall (fun n : ℕ => n) 128 12 (some 0)
      [(((0 : ℤ), 1), 1), (((0 : ℤ), 0), 0)] 13 1
      = ((1, true), 0,
         [(((1 : ℤ), 1), 1), (((0 : ℤ), 1), 1), (((0 : ℤ), 0), 0)]) := by
    simp [ttlCall, lruFind, hb2, hne2, hne3, -Prod.mk_zero_zero]
  constructor
  · simp only [ttlTrace]
    rw [e1]
    simp only [ttlTrace]
    rw [e2]
    simp only [ttlTrace]
    rw [e3]
    simp [ttlTrace]
  · norm_num

/-- C9 amended.  For a function wrapped with `ttl_cache(ttl=T)` with
T > 0 and any positive cache size, buckets are anchored at the wrapped
function's overall first call.  For the argument tuple of that first
call the claim holds as stated: starting from a fresh wrapper, a
repeated call with identical arguments made less than T seconds after
the first call returns the cached value without re-invoking the wrapped
function, and a repeated call made more than T seconds after it
recomputes.  For an argument tuple first used after an earlier anchoring
call, the cache hit of a repeated call is determined by bucket equality
anchored at that first call: equal buckets hit the cache, distinct
buckets recompute — so a repeated call less than T seconds after its own
first call may recompute when it crosses a bucket boundary, which is
what the counterexample exhibits. -/
theorem c9_ttl_cache_amended {α β : Type} [DecidableEq α] (f : α → β)
    (maxsize : ℕ) (hms : 1 ≤ maxsize) (ttl : ℚ) (httl : 0 < ttl) :
    (∀ (t1 t2 : ℚ) (a : α), t1 ≤ t2 →
      (t2 < t1 + ttl →
        ttlTrace f maxsize ttl [(t1, a), (t2, a)] none []
          = [(f a, true), (f a, false)])
      ∧ (t1 + ttl < t2 →
        (ttlTrace f maxsize ttl [(t1, a), (t2, a)] none []).map Prod.snd
          = [true, true]))
    ∧ (∀ (t0 t1 t2 : ℚ) (a b : α), b ≠ a →
      (ttlHash t0 ttl t1 = ttlHash t0 ttl t2 →
        ttlTrace f maxsize ttl [(t0, b), (t1, a), (t2, a)] none []
          = [(f b, true), (f a, true), (f a, false)])
      ∧ (ttlHash t0 ttl t1 ≠ ttlHash t0 ttl t2 →
        (ttlTrace f maxsize ttl [(t0, b), (t1, a), (t2, a)] none []).map
            Prod.snd = [true, true, true])) := by
  obtain ⟨m, rfl⟩ : ∃ m, maxsize = m + 1 := ⟨maxsize - 1, by omega⟩
  have hzero : ∀ s : ℚ, ttlHash s ttl s = 0 := by
    intro s
    unfold ttlHash
    simp
  constructor
  · intro t1 t2 a hle
    have e1 : ttlCall f (m + 1) ttl none [] t1 a
        = ((f a, true), t1, [(((0 : ℤ), a), f a)]) := by
      simp [ttlCall, lruFind, hzero t1]
    constructor
    · intro h2
      have hb2 : ttlHash t1 ttl t2 = 0 := by
        unfold ttlHash
        rw [Int.floor_eq_zero_iff, Set.mem_Ico]
        unfold ttlEffective
        rw [if_neg (not_le.mpr httl)]
        constructor
        · exact div_nonneg (by linarith) (le_of_lt httl)
        · rw [div_lt_one httl]
          linarith
      have e2 : ttlCall f (m + 1) ttl (some t1) [(((0 : ℤ), a), f a)] t2 a
          = ((f a, false), t1, [(((0 : ℤ), a), f a)]) := by
        simp [ttlCall, lruFind, lruErase, hb2]
      simp only [ttlTrace]
      rw [e1]
      simp only [ttlTrace]
      rw [e2]
    · intro h2
      have hk : (0 : ℤ) ≠ ttlHash t1 ttl t2 := by
        have := ttlHash_lt t1 ttl t1 t2 httl h2
        rw [hzero t1] at this
        exact ne_of_lt this
      have e2 : ttlCall f (m + 1) ttl (some t1) [(((0 : ℤ), a), f a)] t2 a
          = ((f a, true), t1, List.take (m + 1)
              [((ttlHash t1 ttl t2, a), f a), (((0 : ℤ), a), f a)]) := by
        simp [ttlCall, lruFind, Prod.mk.injEq, hk]
      simp only [ttlTrace]
      rw [e1]
      simp only [ttlTrace]
      rw [e2]
      simp [ttlTrace]
  · intro t0 t1 t2 a b hba
    have e1 : ttlCall f (m + 1) ttl none [] t0 b
        = ((f b, true), t0, [(((0 : ℤ), b), f b)]) := by
      simp [ttlCall, lruFind, hzero t0]
    have e2 : ttlCall f (m + 1) ttl (some t0) [(((0 : ℤ), b), f b)] t1 a
        = ((f a, true), t0,
           ((ttlHash t0 ttl t1, a), f a) ::
             List.take m [(((0 : ℤ), b), f b)]) := by
      simp [ttlCall, lruFind, Prod.mk.injEq, hba]
    constructor
    · intro h
      have e3 : ttlCall f (m + 1) ttl (some t0)
          (((ttlHash t0 ttl t1, a), f a) ::
            List.take m [(((0 : ℤ), b), f b)]) t2 a
          = ((f a, false), t0,
             ((ttlHash t0 ttl t2, a), f a) ::
               lruErase (ttlHash t0 ttl t2, a)
                 (((ttlHash t0 ttl t1, a), f a) ::
                   List.take m [(((0 : ℤ), b), f b)])) := by
        simp [ttlCall, lruFind, h]
      simp only [ttlTrace]
      rw [e1]
      simp only [ttlTrace]
      rw [e2]
      simp only [ttlTrace]
      rw [e3]
    · intro h
      have htail : List.find?
          (fun p => decide (p.1 = ((ttlHash t0 ttl t2 : ℤ), a)))
          (List.take m [(((0 : ℤ), b), f b)]) = none := by
        rcases m with _ | m'
        · rfl
        · simp [List.take_succ_cons, List.find?, Prod.mk.injEq, hba]
      have e3 : ttlCall f (m + 1) ttl (some t0)
          (((ttlHash t0 ttl t1, a), f a) ::
            List.take m [(((0 : ℤ), b), f b)]) t2 a
          = ((f a, true), t0, List.take (m + 1)
              (((ttlHash t0 ttl t2, a), f a) ::
                ((ttlHash t0 ttl t1, a), f a) ::
                  List.take m [(((0 : ℤ), b), f b)])) := by
        simp [ttlCall, lruFind, List.find?, Prod.mk.injEq, h, htail]
      simp only [ttlTrace]
      rw [e1]
      simp only [ttlTrace]
      rw [e2]
      simp only [ttlTrace]
      rw [e3]
      simp [ttlTrace]

/-- C9 witness: the amended statement at TTL 12 — from a fresh wrapper,
a second call 6 seconds after the first (same arguments) hits the cache;
and after an anchoring call at t = 0 with a different argument, the calls
at t = 11 and t = 13 with identical arguments both compute. -/
theorem c9_ttl_cache_amended_witness :
    ttlTrace (fun n : ℕ => n + 1) 128 12 [((3 : ℚ), 7), (9, 7)] none []
      = [(8, true), (8, false)]
    ∧ (ttlTrace (fun n : ℕ => n + 1) 128 12
        [((0 : ℚ), 0), (11, 7), (13, 7)] none []).map Prod.snd
      = [true, true, true] := by
  constructor
  · exact ((c9_ttl_cache_amended (fun n : ℕ => n + 1) 128 (by norm_num) 12
      (by norm_num)).1 3 9 7 (by norm_num)).1 (by norm_num)
  · refine ((c9_ttl_cache_amended (fun n : ℕ => n + 1) 128 (by norm_num) 12
      (by norm_num)).2 0 11 13 7 0 (by norm_num)).2 ?_
    have hb1 : ttlHash 0 12 11 = 0 := by
      unfold ttlHash ttlEffective
      norm_num
    have hb2 : ttlHash 0 12 13 = 1 := by
      unfold ttlHash ttlEffective
      norm_num
    rw [hb1, hb2]
    decide

/-- C8.  In every successful `upload_model` attempt (training active,
repository present, save/upload/listing succeeding, and every tag
condition evaluating without error): the hub call sequence performs the
tag deletions strictly before creating the new tag; every existing tag
that is literally None-spelled, or that belongs to the same run with an
epoch strictly greater than the uploaded epoch, or that equals the tag
about to be created, is among the deletions; and a same-run tag with a
strictly earlier epoch is never deleted. -/
theorem c8_tag_gc (env : UploadEnv) (run : List Char) (epoch innerStep : ℕ)
    (hact : env.trainingActive = true)
    (hrepo : env.repoExists = true)
    (hsave : env.saveExc = none)
    (hup : env.uploadExc = none)
    (hlist : env.listRefsExc = none)
    (hparse : ∀ t ∈ env.tags, (pyShouldDelete run epoch innerStep t).isOk) :
    (upload_model env run epoch innerStep).1 = .succeeded
    ∧ (upload_model env run epoch innerStep).2
        = HubOp.repoExistsCheck :: HubOp.uploadFolder :: HubOp.listRepoRefs ::
          ((env.tags.filter (shouldDeleteB run epoch innerStep)).map
              HubOp.deleteTag
            ++ [HubOp.createTag (tagName run epoch innerStep)])
    ∧ (∀ t ∈ env.tags, t = strNone →
        HubOp.deleteTag t
          ∈ (env.tags.filter (shouldDeleteB run epoch innerStep)).map
              HubOp.deleteTag)
    ∧ (∀ t ∈ env.tags, ∀ es s2 : List Char, ∀ k : ℤ,
        splitDots t = [run, es, s2] → pyInt es = some k →
        (epoch : ℤ) < k →
        HubOp.deleteTag t
          ∈ (env.tags.filter (shouldDeleteB run epoch innerStep)).map
              HubOp.deleteTag)
    ∧ (∀ t ∈ env.tags, t = tagName run epoch innerStep →
        HubOp.deleteTag t
          ∈ (env.tags.filter (shouldDeleteB run epoch innerStep)).map
              HubOp.deleteTag)
    ∧ (∀ t ∈ env.tags, ∀ es s2 : List Char, ∀ k : ℤ,
        splitDots t = [run, es, s2] → pyInt es = some k →
        k < (epoch : ℤ) →
        HubOp.deleteTag t ∉ (upload_model env run epoch innerStep).2) := by
  have hpt := processTags_ok run epoch innerStep env.tags hparse
  have hatt : uploadAttempt env run epoch innerStep
      = (HubOp.uploadFolder :: HubOp.listRepoRefs ::
          ((env.tags.filter (shouldDeleteB run epoch innerStep)).map
              HubOp.deleteTag
            ++ [HubOp.createTag (tagName run epoch innerStep)]), none) := by
    unfold uploadAttempt
    rw [hsave, hup, hlist, hpt]
    rfl
  have hloop : uploadLoop env run epoch innerStep 3
      = (.succeeded,
         HubOp.uploadFolder :: HubOp.listRepoRefs ::
           ((env.tags.filter (shouldDeleteB run epoch innerStep)).map
               HubOp.deleteTag
             ++ [HubOp.createTag (tagName run epoch innerStep)])) := by
    unfold uploadLoop
    rw [hact, hatt]
    rfl
  have hevents : upload_model env run epoch innerStep
      = (.succeeded,
         HubOp.repoExistsCheck :: HubOp.uploadFolder :: HubOp.listRepoRefs ::
           ((env.tags.filter (shouldDeleteB run epoch innerStep)).map
               HubOp.deleteTag
             ++ [HubOp.createTag (tagName run epoch innerStep)])) := by
    unfold upload_model
    rw [hrepo, hloop]
    rfl
  refine ⟨by rw [hevents], by rw [hevents], ?_, ?_, ?_, ?_⟩
  · intro t ht he
    subst he
    exact List.mem_map.mpr ⟨strNone, List.mem_filter.mpr ⟨ht, by
      simp [shouldDeleteB, pyShouldDelete_strNone]⟩, rfl⟩
  · intro t ht es s2 k hsplit hparse' hk
    exact List.mem_map.mpr ⟨t, List.mem_filter.mpr ⟨ht, by
      simp [shouldDeleteB,
        pyShouldDelete_later run epoch innerStep t es s2 k hsplit hparse' hk]⟩,
      rfl⟩
  · intro t ht he
    subst he
    exact List.mem_map.mpr ⟨_, List.mem_filter.mpr ⟨ht, by
      simp [shouldDeleteB,
        pyShouldDelete_self run epoch innerStep
          (hparse _ ht)]⟩, rfl⟩
  · intro t ht es s2 k hsplit hparse' hk hmem
    have hfalse : shouldDeleteB run epoch innerStep t = false := by
      simp [shouldDeleteB,
        pyShouldDelete_earlier run epoch innerStep t es s2 k hsplit hparse' hk]
    rw [hevents] at hmem
    simp only [List.mem_cons, List.mem_append, List.mem_map,
      List.mem_singleton] at hmem
    rcases hmem with h | h | h | ⟨x, hx, hxe⟩ | h
    · simp at h
    · simp at h
    · simp at h
    · have hxt : x = t := by
        injection hxe
      subst hxt
      rw [List.mem_filter] at hx
      rw [hx.2] at hfalse
      simp at hfalse
    · simp at h

/-- C8 witness: the concrete tag set at epoch 5, inner step 2 — the None
sentinel, the epoch-7 tag and the tag to be recreated are all deleted
before the new tag is created; the epoch-4 tag is untouched. -/
theorem c8_tag_gc_witness :
    (upload_model c8Env c8Run 5 2).1 = UploadOutcome.succeeded
    ∧ HubOp.deleteTag strNone ∈ (upload_model c8Env c8Run 5 2).2
    ∧ HubOp.deleteTag (c8Run ++ '.' :: decChars 4 ++ '.' :: decChars 9)
        ∉ (upload_model c8Env c8Run 5 2).2 := by
  have h := c8_tag_gc c8Env c8Run 5 2 rfl rfl rfl rfl rfl (by decide)
  refine ⟨h.1, ?_, ?_⟩
  · rw [h.2.1]
    have := h.2.2.1 strNone (by decide) rfl
    simp only [List.mem_cons, List.mem_append]
    exact Or.inr (Or.inr (Or.inr (Or.inl this)))
  · have h4 : splitDots (c8Run ++ '.' :: decChars 4 ++ '.' :: decChars 9)
        = [c8Run, decChars 4, decChars 9] := by
      have : (c8Run ++ '.' :: decChars 4 ++ '.' :: decChars 9)
          = tagName c8Run 4 9 := by
        unfold tagName
        rfl
      rw [this]
      exact splitDots_tagName c8Run 4 9 (by decide)
    exact h.2.2.2.2.2 _ (by decide) (decChars 4) (decChars 9) 4 h4
      (pyInt_decChars 4) (by norm_num)
